import Mathlib

/-!
Verification of the EventBus core of `src/scripts/core/database.js`
(the later revision of the module, lines 230-536 of the concatenated file).

The JavaScript data structures are embedded as follows:

* a JS function (listener) value is identified by a `HId` (identity
  comparison of function objects becomes equality of identifiers);
* the JS `Map` `EventBus.listenersMap` becomes an association list
  `Registry` preserving key insertion order (a JS `Map` iterates keys in
  first-insertion order, and `Map.set` on an existing key keeps its slot);
* each JS `Set` of handlers becomes a duplicate-free `List HId` preserving
  first-insertion order (`Set.add` on a present element is a no-op and does
  not move the element; `Set.delete` keeps the order of the others);
* `emit` / `emitAsync` resolve their delivery set by building a fresh
  `Set` from the specific handlers followed by the wildcard handlers; this
  is `deliveryList` below, which also records the boolean
  `shouldSendEventName` computed for each delivered handler.
-/

namespace EventBus

/-- Identity of a JS function object used as an event handler. -/
abbrev HId := Nat

/-- The `listenersMap` field: event name to ordered duplicate-free handler
list, keys in insertion order, mirroring a JS `Map` of `Set`s. -/
abbrev Registry := List (String × List HId)

/-- Mirrors `listenersMap.get(name)`: the handler set stored under a key,
or `none` when the key is absent (a JS `Map` holds each key once, so the
first matching entry is the entry). -/
def lookupEvent : Registry → String → Option (List HId)
  | [], _ => none
  | pr :: rest, e => if pr.1 == e then some pr.2 else lookupEvent rest e

/-- Mirrors `listenersMap.set(name, handlers)`: replace the value of an
existing key in place (keeping key order), otherwise append the new pair. -/
def setEvent : Registry → String → List HId → Registry
  | [], e, hs => [(e, hs)]
  | pr :: rest, e, hs =>
    if pr.1 == e then (e, hs) :: rest else pr :: setEvent rest e hs

/-- Mirrors `listenersMap.delete(name)`. -/
def deleteEvent (reg : Registry) (e : String) : Registry :=
  reg.filter (fun pr => pr.1 != e)

/-- Mirrors `Set.add`: appending a fresh element, a no-op for a present
element (the element keeps its original position). -/
def setAdd (hs : List HId) (h : HId) : List HId :=
  if h ∈ hs then hs else hs ++ [h]

/-- Mirrors `EventBus.on` (validation aside, which only checks the argument
types): fetch or create the handler set, add the handler, store the set.
Named `onReg` because `on` is reserved in Lean. -/
def onReg (reg : Registry) (e : String) (h : HId) : Registry :=
  setEvent reg e (setAdd ((lookupEvent reg e).getD []) h)

/-- Mirrors the `event + handler` arm of `EventBus.off`: delete the handler
from the set and drop the mapping entry when the set becomes empty. -/
def offPair (reg : Registry) (e : String) (h : HId) : Registry :=
  match lookupEvent reg e with
  | none => reg
  | some hs =>
    let hs2 := hs.filter (fun x => x ≠ h)
    if hs2.length = 0 then deleteEvent reg e else setEvent reg e hs2

/-- Mirrors `EventBus.eventNames()`. -/
def eventNames (reg : Registry) : List String := reg.map Prod.fst

/-- Mirrors `EventBus.listenerCount(name)`. -/
def listenerCount (reg : Registry) (e : String) : Nat :=
  ((lookupEvent reg e).getD []).length

/-- The per-handler boolean `shouldSendEventName` computed inside `emit` and
`emitAsync`:
`wildcardHandlers?.has(fn) && (!specificHandlers || !specificHandlers.has(fn))`. -/
def shouldSendName (sOpt wOpt : Option (List HId)) (fn : HId) : Bool :=
  (match wOpt with
   | some ws => decide (fn ∈ ws)
   | none => false)
  && (match sOpt with
      | some ss => !decide (fn ∈ ss)
      | none => true)

/-- The fresh `Set` built inside `emit` / `emitAsync`, seeded with the
specific handlers and extended with the wildcard handlers. -/
def unionHandlers (sOpt wOpt : Option (List HId)) : List HId :=
  (wOpt.getD []).foldl setAdd ((sOpt.getD []).foldl setAdd [])

/-- The delivery set of `emit` / `emitAsync`, with the
`shouldSendEventName` boolean recorded next to each handler. -/
def deliveryList (reg : Registry) (e : String) : List (HId × Bool) :=
  (unionHandlers (lookupEvent reg e) (lookupEvent reg "*")).map
    (fun fn => (fn, shouldSendName (lookupEvent reg e) (lookupEvent reg "*") fn))

theorem setAdd_mem {hs : List HId} {h x : HId} :
    x ∈ setAdd hs h ↔ x ∈ hs ∨ x = h := by
  unfold setAdd
  split
  · constructor
    · exact fun hx => Or.inl hx
    · rintro (hx | rfl) <;> assumption
  · simp [List.mem_append]

theorem setAdd_nodup {hs : List HId} {h : HId} (hnd : hs.Nodup) :
    (setAdd hs h).Nodup := by
  unfold setAdd
  split
  · exact hnd
  · next hmem => simpa [List.nodup_append] using ⟨hnd, hmem⟩

theorem foldl_setAdd_mem :
    ∀ (l acc : List HId) (x : HId),
      x ∈ l.foldl setAdd acc ↔ x ∈ acc ∨ x ∈ l := by
  intro l
  induction l with
  | nil => simp
  | cons a rest ih =>
    intro acc x
    simp only [List.foldl_cons, ih, setAdd_mem, List.mem_cons]
    tauto

theorem foldl_setAdd_nodup :
    ∀ (l acc : List HId), acc.Nodup → (l.foldl setAdd acc).Nodup := by
  intro l
  induction l with
  | nil => exact fun acc h => h
  | cons a rest ih =>
    intro acc hacc
    exact ih _ (setAdd_nodup hacc)

theorem foldl_setAdd_eq :
    ∀ (l acc : List HId), l.Nodup →
      l.foldl setAdd acc = acc ++ l.filter (fun x => !decide (x ∈ acc)) := by
  intro l
  induction l with
  | nil => simp
  | cons a rest ih =>
    intro acc hnd
    obtain ⟨ha, hrest⟩ := List.nodup_cons.mp hnd
    by_cases hmem : a ∈ acc
    · rw [List.foldl_cons, setAdd, if_pos hmem, ih acc hrest,
        List.filter_cons_of_neg (by simpa using hmem)]
    · rw [List.foldl_cons, setAdd, if_neg hmem, ih _ hrest,
        List.filter_cons_of_pos (by simpa using hmem), List.append_assoc]
      congr 1
      rw [List.singleton_append]
      congr 1
      apply List.filter_congr
      intro x hx
      have hxa : x ≠ a := fun hcontr => ha (hcontr ▸ hx)
      simp [List.mem_append, hxa]

theorem deliveryList_map_fst (reg : Registry) (e : String) :
    (deliveryList reg e).map Prod.fst =
      unionHandlers (lookupEvent reg e) (lookupEvent reg "*") := by
  unfold deliveryList
  rw [List.map_map]
  exact List.map_id _ ▸ rfl

theorem deliveryList_fst_nodup (reg : Registry) (e : String) :
    ((deliveryList reg e).map Prod.fst).Nodup := by
  rw [deliveryList_map_fst]
  exact foldl_setAdd_nodup _ _ (foldl_setAdd_nodup _ _ List.nodup_nil)

theorem mem_unionHandlers {sOpt wOpt : Option (List HId)} {x : HId} :
    x ∈ unionHandlers sOpt wOpt ↔ (x ∈ sOpt.getD [] ∨ x ∈ wOpt.getD []) := by
  unfold unionHandlers
  rw [foldl_setAdd_mem, foldl_setAdd_mem]
  simp [or_comm]

theorem mem_deliveryList_fst (reg : Registry) (e : String) (x : HId) :
    x ∈ (deliveryList reg e).map Prod.fst ↔
      (x ∈ (lookupEvent reg e).getD [] ∨ x ∈ (lookupEvent reg "*").getD []) := by
  rw [deliveryList_map_fst, mem_unionHandlers]

theorem getD_mem_iff {o : Option (List HId)} {x : HId} :
    x ∈ o.getD [] ↔ ∃ l, o = some l ∧ x ∈ l := by
  cases o <;> simp

theorem shouldSendName_false_iff {sOpt wOpt : Option (List HId)} {fn : HId}
    (hmem : fn ∈ unionHandlers sOpt wOpt) :
    shouldSendName sOpt wOpt fn = false ↔ fn ∈ sOpt.getD [] := by
  unfold shouldSendName
  constructor
  · intro hfalse
    by_contra hnot
    rcases mem_unionHandlers.mp hmem with hs | hw
    · exact hnot hs
    · rcases getD_mem_iff.mp hw with ⟨ws, hws, hfnw⟩
      subst hws
      cases sOpt with
      | none => simp [hfnw] at hfalse
      | some ss =>
        have hns : fn ∉ ss := by simpa using hnot
        simp [hfnw, hns] at hfalse
  · intro hs
    rcases getD_mem_iff.mp hs with ⟨ss, hss, hfns⟩
    subst hss
    simp [hfns]

theorem lookup_mem_of_some {reg : Registry} {e : String} {hs : List HId}
    (hlook : lookupEvent reg e = some hs) : ∃ pr ∈ reg, pr.2 = hs := by
  induction reg with
  | nil => simp [lookupEvent] at hlook
  | cons pr rest ih =>
    obtain ⟨k, v⟩ := pr
    by_cases hk : k = e
    · refine ⟨(k, v), by simp, ?_⟩
      simp [lookupEvent, hk] at hlook
      exact hlook
    · have hlook2 : lookupEvent rest e = some hs := by
        simpa [lookupEvent, hk] using hlook
      obtain ⟨q, hq, hqv⟩ := ih hlook2
      exact ⟨q, by simp [hq], hqv⟩

theorem lookup_getD_nodup (reg : Registry) (e : String)
    (hsets : ∀ pr ∈ reg, pr.2.Nodup) :
    ((lookupEvent reg e).getD []).Nodup := by
  cases hlook : lookupEvent reg e with
  | none => simp
  | some hs =>
    obtain ⟨pr, hpr, hprv⟩ := lookup_mem_of_some hlook
    simpa [hprv] using hsets pr hpr

theorem setEvent_self (reg : Registry) (e : String) (hs : List HId)
    (hlook : lookupEvent reg e = some hs) :
    setEvent reg e hs = reg := by
  induction reg with
  | nil => simp [lookupEvent] at hlook
  | cons pr rest ih =>
    obtain ⟨k, v⟩ := pr
    by_cases hk : k = e
    · subst hk
      simp only [lookupEvent, beq_self_eq_true, if_true, Option.some.injEq] at hlook
      simp [setEvent, hlook]
    · have hlook2 : lookupEvent rest e = some hs := by
        simpa [lookupEvent, hk] using hlook
      simp [setEvent, hk, ih hlook2]

theorem onReg_mem_noop (reg : Registry) (e : String) (h : HId)
    (hmem : h ∈ (lookupEvent reg e).getD []) :
    onReg reg e h = reg := by
  rcases getD_mem_iff.mp hmem with ⟨hs, hlook, hin⟩
  unfold onReg
  rw [hlook]
  simp only [Option.getD_some]
  rw [setAdd, if_pos hin]
  exact setEvent_self reg e hs hlook

theorem deliveryList_order (reg : Registry) (e : String)
    (hsets : ∀ pr ∈ reg, pr.2.Nodup) :
    (deliveryList reg e).map Prod.fst =
      (lookupEvent reg e).getD [] ++
        ((lookupEvent reg "*").getD []).filter
          (fun x => !decide (x ∈ (lookupEvent reg e).getD [])) := by
  rw [deliveryList_map_fst]
  unfold unionHandlers
  rw [foldl_setAdd_eq _ _ (lookup_getD_nodup reg e hsets),
    foldl_setAdd_eq _ _ (lookup_getD_nodup reg "*" hsets)]
  simp

/-- C2: within one `emit(e, p)` call the delivery set is duplicate-free (no
listener is invoked twice even when registered both specifically and for the
wildcard), it consists exactly of the specifically-registered and
wildcard-registered listeners, and a delivered listener receives the event
name as a second argument (flag `true`) precisely when it is not in the
specific set — i.e. a listener registered for `e` is called with the payload
only. -/
theorem c2_emit_dedup_and_wildcard_flag (reg : Registry) (e : String) :
    ((deliveryList reg e).map Prod.fst).Nodup ∧
    (∀ x : HId, x ∈ (deliveryList reg e).map Prod.fst ↔
        (x ∈ (lookupEvent reg e).getD [] ∨ x ∈ (lookupEvent reg "*").getD [])) ∧
    (∀ hb ∈ deliveryList reg e,
        (hb.2 = false ↔ hb.1 ∈ (lookupEvent reg e).getD [])) := by
  refine ⟨deliveryList_fst_nodup reg e, mem_deliveryList_fst reg e, ?_⟩
  intro hb hmem
  unfold deliveryList at hmem
  rcases List.mem_map.mp hmem with ⟨fn, hfn, rfl⟩
  simpa using shouldSendName_false_iff hfn

/-- Concrete registry for the C2 witness: listener 5 registered both for
event `x` and for the wildcard, listener 7 registered for the wildcard
only. -/
def regC2w : Registry := onReg (onReg (onReg [] "x" 5) "*" 5) "*" 7

/-- Witness for C2 at a concrete registry: the delivery set for `x` is
duplicate-free, contains listener 5, and listener 5 (registered for `x`)
has the event-name flag `false`. -/
theorem c2_emit_dedup_and_wildcard_flag_witness :
    ((deliveryList regC2w "x").map Prod.fst).Nodup ∧
    ((5 : HId) ∈ (deliveryList regC2w "x").map Prod.fst) ∧
    ((false = false) ↔ (5 : HId) ∈ (lookupEvent regC2w "x").getD []) :=
  ⟨(c2_emit_dedup_and_wildcard_flag regC2w "x").1,
   ((c2_emit_dedup_and_wildcard_flag regC2w "x").2.1 5).mpr (Or.inl (by decide)),
   (c2_emit_dedup_and_wildcard_flag regC2w "x").2.2 (5, false) (by decide)⟩

/-- Concrete registry for the C8 counterexample: listener 1 registered for
`x`, then listener 2, then listener 1 re-registered while still present. -/
def regReAdd : Registry := onReg (onReg (onReg [] "x" 1) "x" 2) "x" 1

/-- C8 counterexample: re-registering listener 1 (already registered) does
NOT move it to the end of the delivery order. The claimed
most-recent-(re-)insertion order would be `[2, 1]`; the code delivers in
first-insertion order `[1, 2]`, because `Set.add` of a present element is a
positional no-op. -/
theorem c8_counterexample_readd_keeps_position :
    ¬ (deliveryList regReAdd "x").map Prod.fst = [2, 1] ∧
      (deliveryList regReAdd "x").map Prod.fst = [1, 2] := by
  constructor
  · decide
  · decide

/-- C8 (amended): re-registering an already-registered listener leaves the
registry (hence the delivery order) unchanged, and delivery order is the
specific-event set in first-insertion order followed by the wildcard set
members not already delivered, in their first-insertion order. A listener
moves to the end only if it is removed and then re-added. -/
theorem c8_delivery_order_first_insertion (reg : Registry) (e he : String)
    (h : HId) (hsets : ∀ pr ∈ reg, pr.2.Nodup) :
    (h ∈ (lookupEvent reg he).getD [] → onReg reg he h = reg) ∧
    (deliveryList reg e).map Prod.fst =
      (lookupEvent reg e).getD [] ++
        ((lookupEvent reg "*").getD []).filter
          (fun x => !decide (x ∈ (lookupEvent reg e).getD [])) :=
  ⟨fun hmem => onReg_mem_noop reg he h hmem, deliveryList_order reg e hsets⟩

/-- Concrete registry for the C8 amended witness: listeners 1 and 2 for
`x`, listener 2 also for the wildcard. -/
def regW8 : Registry := onReg (onReg (onReg [] "x" 1) "*" 2) "x" 2

/-- Witness for the amended C8 at a concrete registry: re-adding listener 1
leaves the registry unchanged, and the delivery order equals the specific
set followed by the wildcard extras. -/
theorem c8_delivery_order_first_insertion_witness :
    (onReg regW8 "x" 1 = regW8) ∧
    (deliveryList regW8 "x").map Prod.fst =
      (lookupEvent regW8 "x").getD [] ++
        ((lookupEvent regW8 "*").getD []).filter
          (fun x => !decide (x ∈ (lookupEvent regW8 "x").getD [])) :=
  ⟨(c8_delivery_order_first_insertion regW8 "x" "x" 1 (by decide)).1 (by decide),
   (c8_delivery_order_first_insertion regW8 "x" "x" 1 (by decide)).2⟩

/-- Outcome of calling one listener synchronously: it returns normally or
throws. -/
inductive CallResult where
  | ok : CallResult
  | throws (msg : String) : CallResult

/-- Mirrors the dispatch loop of `emit`: iterate the delivery set; each
call is wrapped in try/catch, a thrown error is appended to the log as
`console.error("EventBus handler failure for <event>", error)` and the loop
continues with the next listener. Returns the invocations actually
performed (with their `shouldSendEventName` flag) and the error log. The
function is total: no listener exception escapes to the caller of `emit`. -/
def emitWithFaults (reg : Registry) (e : String) (beh : HId → CallResult) :
    List (HId × Bool) × List (String × String) :=
  (deliveryList reg e).foldl
    (fun acc hb =>
      match beh hb.1 with
      | CallResult.ok => (acc.1 ++ [hb], acc.2)
      | CallResult.throws m => (acc.1 ++ [hb], acc.2 ++ [(e, m)]))
    ([], [])

theorem emitWithFaults_foldl_general (e : String)
    (beh : HId → CallResult) :
    ∀ (l : List (HId × Bool)) (acc : List (HId × Bool) × List (String × String)),
      l.foldl
        (fun acc hb =>
          match beh hb.1 with
          | CallResult.ok => (acc.1 ++ [hb], acc.2)
          | CallResult.throws m => (acc.1 ++ [hb], acc.2 ++ [(e, m)]))
        acc =
      (acc.1 ++ l,
       acc.2 ++ l.filterMap
        (fun hb =>
          match beh hb.1 with
          | CallResult.ok => none
          | CallResult.throws m => some (e, m))) := by
  intro l
  induction l with
  | nil => simp
  | cons hb rest ih =>
    intro acc
    rw [List.foldl_cons, List.filterMap_cons]
    cases beh hb.1 with
    | ok => rw [ih]; simp
    | throws m => rw [ih]; simp

/-- C3: in `emit(e, p)`, even when some listeners throw, every listener of
the delivery set is invoked, in delivery order (first conjunct: the
invocation trace equals the full delivery set for every fault assignment),
and the errors logged are exactly those of the throwing listeners, in
order; `emitWithFaults` is a total function, so `emit` returns normally to
its caller. -/
theorem c3_emit_isolates_listener_faults (reg : Registry) (e : String)
    (beh : HId → CallResult) :
    (emitWithFaults reg e beh).1 = deliveryList reg e ∧
    (emitWithFaults reg e beh).2 =
      (deliveryList reg e).filterMap
        (fun hb =>
          match beh hb.1 with
          | CallResult.ok => none
          | CallResult.throws m => some (e, m)) := by
  unfold emitWithFaults
  rw [emitWithFaults_foldl_general e beh (deliveryList reg e) ([], [])]
  simp

/-- A promise outcome: the value a listener returns either resolves or
rejects. -/
inductive PromiseOutcome where
  | resolves (v : Nat) : PromiseOutcome
  | rejects (err : String) : PromiseOutcome

/-- Synchronous behaviour of a listener under `emitAsync`: it throws
synchronously, or returns a value treated as a promise. -/
inductive SyncBeh where
  | throws (err : String) : SyncBeh
  | returns (p : PromiseOutcome) : SyncBeh

/-- A task as built by `emitAsync`: `Promise.resolve(result)` when the call
returned, `Promise.reject(error)` when it threw synchronously. -/
inductive Task where
  | resolvedOf (p : PromiseOutcome) : Task
  | rejectedOf (err : String) : Task

/-- One settled result as produced by `Promise.allSettled`. -/
inductive Settled where
  | fulfilled (v : Nat) : Settled
  | rejected (err : String) : Settled
deriving DecidableEq

/-- Mirrors the task construction inside `emitAsync`:
try : `Promise.resolve(fn(payload))` / catch : `Promise.reject(error)`. -/
def mkTask (b : SyncBeh) : Task :=
  match b with
  | SyncBeh.throws e => Task.rejectedOf e
  | SyncBeh.returns p => Task.resolvedOf p

/-- Mirrors `Promise.allSettled` on one task. -/
def settleTask (t : Task) : Settled :=
  match t with
  | Task.resolvedOf (PromiseOutcome.resolves v) => Settled.fulfilled v
  | Task.resolvedOf (PromiseOutcome.rejects e) => Settled.rejected e
  | Task.rejectedOf e => Settled.rejected e

/-- Mirrors `emitAsync`: build one task per handler of the delivery set
(`Array.from(handlers, ...)`), then settle them all. -/
def emitAsyncRun (reg : Registry) (e : String) (beh : HId → SyncBeh) :
    List Settled :=
  ((deliveryList reg e).map (fun hb => mkTask (beh hb.1))).map settleTask

/-- True when a settled result is a failure outcome. -/
def isFailureOutcome : Settled → Bool
  | Settled.fulfilled _ => false
  | Settled.rejected _ => true

/-- True when a listener behaviour fails (throws synchronously or
rejects). -/
def behFailing : SyncBeh → Bool
  | SyncBeh.throws _ => true
  | SyncBeh.returns (PromiseOutcome.rejects _) => true
  | SyncBeh.returns (PromiseOutcome.resolves _) => false

/-- C4: `emitAsync(e, p)` launches every listener of the delivery set and
returns exactly one settled outcome per listener, in delivery order: the
outcome at position `i` is the settled task of listener `i`, and it is a
failure outcome precisely when that listener throws synchronously or
rejects. The function is total, so it never throws and never
short-circuits on the first failure. -/
theorem c4_emitAsync_settles_all (reg : Registry) (e : String)
    (beh : HId → SyncBeh) :
    (emitAsyncRun reg e beh).length = (deliveryList reg e).length ∧
    (∀ i : Nat, (emitAsyncRun reg e beh)[i]? =
        ((deliveryList reg e)[i]?).map (fun hb => settleTask (mkTask (beh hb.1)))) ∧
    (∀ i : Nat, ((emitAsyncRun reg e beh)[i]?).map isFailureOutcome =
        ((deliveryList reg e)[i]?).map (fun hb => behFailing (beh hb.1))) := by
  have hpt : ∀ b : SyncBeh, isFailureOutcome (settleTask (mkTask b)) = behFailing b := by
    intro b
    cases b with
    | throws m => rfl
    | returns p => cases p <;> rfl
  refine ⟨by simp [emitAsyncRun], ?_, ?_⟩
  · intro i
    simp only [emitAsyncRun, List.getElem?_map, Option.map_map]
    cases (deliveryList reg e)[i]? with
    | none => rfl
    | some hb => simp [Function.comp]
  · intro i
    simp only [emitAsyncRun, List.getElem?_map, Option.map_map]
    cases (deliveryList reg e)[i]? with
    | none => rfl
    | some hb => simp [Function.comp, hpt]

/-- Well-formedness of the listener registry: no event maps to an empty
handler set (the code removes a mapping as soon as its set empties). -/
def RegWF (reg : Registry) : Prop := ∀ pr ∈ reg, pr.2 ≠ []

theorem setAdd_ne_nil (hs : List HId) (h : HId) : setAdd hs h ≠ [] := by
  unfold setAdd
  split
  · next hmem => exact List.ne_nil_of_mem hmem
  · simp

theorem RegWF_setEvent {reg : Registry} (e : String) {hs : List HId}
    (hwf : RegWF reg) (hne : hs ≠ []) : RegWF (setEvent reg e hs) := by
  induction reg with
  | nil =>
    intro pr hpr
    simp [setEvent] at hpr
    simp [hpr, hne]
  | cons q rest ih =>
    intro pr hpr
    unfold setEvent at hpr
    split at hpr
    · rcases List.mem_cons.mp hpr with hh | ht
      · simp [hh, hne]
      · exact hwf pr (List.mem_cons_of_mem q ht)
    · rcases List.mem_cons.mp hpr with hh | ht
      · exact hwf pr (hh ▸ List.mem_cons_self q rest)
      · exact ih (fun r hr => hwf r (List.mem_cons_of_mem q hr)) pr ht

theorem RegWF_deleteEvent {reg : Registry} (e : String) (hwf : RegWF reg) :
    RegWF (deleteEvent reg e) :=
  fun pr hpr => hwf pr (List.mem_of_mem_filter hpr)

theorem RegWF_onReg {reg : Registry} (e : String) (h : HId) (hwf : RegWF reg) :
    RegWF (onReg reg e h) :=
  RegWF_setEvent e hwf (setAdd_ne_nil _ h)

theorem RegWF_offPair {reg : Registry} (e : String) (h : HId) (hwf : RegWF reg) :
    RegWF (offPair reg e h) := by
  unfold offPair
  cases lookupEvent reg e with
  | none => exact hwf
  | some hs =>
    simp only
    split
    · exact RegWF_deleteEvent e hwf
    · next hlen => exact RegWF_setEvent e hwf (by simpa using hlen)

/-- Behaviour of one registered handler function.  A handler created by
user code is `plain body`: when invoked it runs, possibly synchronously
re-emitting events (`body` is the list of `emit(event, payload)` calls its
body performs).  A handler created by `once(event, inner)` is
`wrapper event inner`: it owns a `completed` latch, checked before and set
before the wrapped handler runs, and removes itself in the `finally`. -/
inductive HSpec where
  | plain (body : List (String × Nat)) : HSpec
  | wrapper (ev : String) (inner : HId) : HSpec

/-- State of the bus during synchronous dispatch: the listener registry,
the set of wrapper handlers whose `completed` latch is set, and the trace
of user-handler invocations (handler identity and payload received). -/
structure BusState where
  registry : Registry
  latched : List HId
  log : List (HId × Nat)

mutual

/-- Mirrors `EventBus.emit`: snapshot the delivery set from the current
registry, then invoke each handler in order.  `fuel` bounds the depth of
synchronous re-entrant emission (the JS call stack); zero fuel stops. -/
def emitRun (env : HId → HSpec) (fuel : Nat) (st : BusState) (e : String)
    (p : Nat) : BusState :=
  match fuel with
  | 0 => st
  | Nat.succ f => foldInvoke env f st (deliveryList st.registry e) p
termination_by (fuel, 1, 0)

/-- The `for (const fn of handlers)` loop of `emit` over an already
snapshotted delivery set. -/
def foldInvoke (env : HId → HSpec) (fuel : Nat) (st : BusState)
    (hs : List (HId × Bool)) (p : Nat) : BusState :=
  match hs with
  | [] => st
  | hb :: rest => foldInvoke env fuel (invokeH env fuel st hb.1 p) rest p
termination_by (fuel, 0, hs.length + 1)

/-- Invoking one handler.  A `plain` handler appends itself to the
invocation log and runs its body.  A `wrapper` handler checks its latch
(`if (completed) return`), sets it before calling the wrapped handler, and
removes itself from the registry afterwards (the `finally` of `once`). -/
def invokeH (env : HId → HSpec) (fuel : Nat) (st : BusState) (h : HId)
    (p : Nat) : BusState :=
  match fuel with
  | 0 => st
  | Nat.succ f =>
    match env h with
    | HSpec.plain body =>
      runBody env f { st with log := st.log ++ [(h, p)] } body
    | HSpec.wrapper ev inner =>
      if h ∈ st.latched then st
      else
        let st2 := invokeH env f { st with latched := st.latched ++ [h] } inner p
        { st2 with registry := offPair st2.registry ev h }
termination_by (fuel, 0, 0)

/-- Running the body of a plain handler: perform its synchronous re-emits
in order. -/
def runBody (env : HId → HSpec) (fuel : Nat) (st : BusState)
    (body : List (String × Nat)) : BusState :=
  match body with
  | [] => st
  | ep :: rest => runBody env fuel (emitRun env fuel st ep.1 ep.2) rest
termination_by (fuel, 2, body.length)

end

/-- Handler environment for the C1 scenario: identity 0 is the user
listener L (whose body is a list of synchronous re-emits), and every other
identity is the `once` wrapper around L for event `e`. -/
def envOnce (e : String) (body : List (String × Nat)) : HId → HSpec :=
  fun h => if h = 0 then HSpec.plain body else HSpec.wrapper e 0

theorem lookup_single {e e2 : String} {v l : List HId}
    (hl : lookupEvent [(e, v)] e2 = some l) : l = v := by
  by_cases h : e = e2
  · subst h
    simp [lookupEvent] at hl
    exact hl.symm
  · simp [lookupEvent, h] at hl

theorem delivery_single_fst (e e2 : String) :
    ∀ x ∈ deliveryList [(e, [1])] e2, x.1 = 1 := by
  intro x hx
  have hfst : x.1 ∈ (deliveryList [(e, [1])] e2).map Prod.fst :=
    List.mem_map_of_mem _ hx
  rw [mem_deliveryList_fst] at hfst
  rcases hfst with hs | hw
  · rcases getD_mem_iff.mp hs with ⟨l, hl, hxl⟩
    rw [lookup_single hl] at hxl
    simpa using hxl
  · rcases getD_mem_iff.mp hw with ⟨l, hl, hxl⟩
    rw [lookup_single hl] at hxl
    simpa using hxl

theorem invokeH_latched (e : String) (body : List (String × Nat))
    (fuel : Nat) (st : BusState) (p : Nat) (hl : 1 ∈ st.latched) :
    invokeH (envOnce e body) fuel st 1 p = st := by
  cases fuel with
  | zero => simp [invokeH]
  | succ f => simp [invokeH, envOnce, hl]

theorem foldInvoke_ones (e : String) (body : List (String × Nat)) :
    ∀ (hs : List (HId × Bool)) (fuel : Nat) (st : BusState) (p : Nat),
      (∀ x ∈ hs, x.1 = 1) → 1 ∈ st.latched →
      foldInvoke (envOnce e body) fuel st hs p = st := by
  intro hs
  induction hs with
  | nil => intro fuel st p _ _; simp [foldInvoke]
  | cons hb rest ih =>
    intro fuel st p hall hl
    have h1 : hb.1 = 1 := hall hb (by simp)
    simp only [foldInvoke]
    rw [h1, invokeH_latched e body fuel st p hl]
    exact ih fuel st p (fun x hx => hall x (by simp [hx])) hl

theorem emitRun_stuck (e : String) (body : List (String × Nat))
    (fuel : Nat) (st : BusState) (e2 : String) (p : Nat)
    (hreg : st.registry = [(e, [1])]) (hl : 1 ∈ st.latched) :
    emitRun (envOnce e body) fuel st e2 p = st := by
  cases fuel with
  | zero => simp [emitRun]
  | succ f =>
    simp only [emitRun]
    rw [hreg]
    exact foldInvoke_ones e body _ f st p (delivery_single_fst e e2) hl

theorem runBody_stuck (e : String) (body0 : List (String × Nat)) :
    ∀ (body : List (String × Nat)) (fuel : Nat) (st : BusState),
      st.registry = [(e, [1])] → 1 ∈ st.latched →
      runBody (envOnce e body0) fuel st body = st := by
  intro body
  induction body with
  | nil => intro fuel st _ _; simp [runBody]
  | cons ep rest ih =>
    intro fuel st hreg hl
    simp only [runBody]
    rw [emitRun_stuck e body0 fuel st ep.1 ep.2 hreg hl]
    exact ih fuel st hreg hl

theorem onReg_nil (e : String) (h : HId) : onReg [] e h = [(e, [h])] := by
  simp [onReg, lookupEvent, setAdd, setEvent]

theorem delivery_once_reg (e : String) :
    deliveryList [(e, [1])] e = [(1, false)] := by
  by_cases h : e = "*"
  · subst h
    decide
  · have hs : lookupEvent [(e, [1])] e = some [1] := by simp [lookupEvent]
    have hw : lookupEvent [(e, [1])] "*" = none := by simp [lookupEvent, h]
    unfold deliveryList unionHandlers
    rw [hs, hw]
    simp [shouldSendName, setAdd]

theorem offPair_once (e : String) : offPair [(e, [1])] e 1 = [] := by
  have hs : lookupEvent [(e, [1])] e = some [1] := by simp [lookupEvent]
  unfold offPair
  rw [hs]
  simp [deleteEvent]

theorem delivery_nil (e : String) : deliveryList [] e = [] := by
  simp [deliveryList, unionHandlers, lookupEvent]

/-- C1: for every event name `e`, listener L (handler 0, with an arbitrary
body of synchronous re-emits, in particular possibly re-emitting `e`
itself), and payloads `p1`, `p2`: after `once(e, L)` (which registers the
latching wrapper, handler 1) and two successive `emit(e, p1)`,
`emit(e, p2)` with any stack budget, the invocation log contains exactly
one invocation of L, carrying `p1` — the latch is set before the wrapped
handler runs, so even a synchronous re-emit of `e` from inside L cannot
deliver a second invocation. -/
theorem c1_once_fires_exactly_once (e : String) (body : List (String × Nat))
    (p1 p2 fuel : Nat) :
    (emitRun (envOnce e body) (fuel + 3)
      (emitRun (envOnce e body) (fuel + 3)
        ⟨onReg [] e 1, [], []⟩ e p1) e p2).log = [(0, p1)] := by
  have hfirst : emitRun (envOnce e body) (fuel + 3) ⟨onReg [] e 1, [], []⟩ e p1
      = ⟨[], [1], [(0, p1)]⟩ := by
    simp only [emitRun]
    rw [onReg_nil, delivery_once_reg]
    simp only [foldInvoke]
    simp [invokeH, envOnce]
    rw [runBody_stuck e body body fuel ⟨[(e, [1])], [1], [(0, p1)]⟩ rfl (by simp)]
    simp [offPair_once]
  rw [hfirst]
  have hsecond : emitRun (envOnce e body) (fuel + 3)
      (⟨[], [1], [(0, p1)]⟩ : BusState) e p2 = ⟨[], [1], [(0, p1)]⟩ := by
    simp only [emitRun]
    rw [delivery_nil]
    simp [foldInvoke]
  rw [hsecond]

/-- Registry operations a client can perform on the bus. `once` registers
its latching wrapper through `on`, so `onOp` covers both; `emitOp` runs a
dispatch (whose once-wrappers may remove themselves via `off` mid-call);
`offAllOp` is `off(null)` / `clearListeners()`, `offEventOp` is
`off(event)`, `offPairOp` is `off(event, handler)`. -/
inductive BusOp where
  | onOp (e : String) (h : HId) : BusOp
  | offAllOp : BusOp
  | offEventOp (e : String) : BusOp
  | offPairOp (e : String) (h : HId) : BusOp
  | emitOp (e : String) (p : Nat) (fuel : Nat) : BusOp

/-- Apply one bus operation to the dispatch state. -/
def applyBusOp (env : HId → HSpec) (st : BusState) : BusOp → BusState
  | BusOp.onOp e h => { st with registry := onReg st.registry e h }
  | BusOp.offAllOp => { st with registry := [] }
  | BusOp.offEventOp e => { st with registry := deleteEvent st.registry e }
  | BusOp.offPairOp e h => { st with registry := offPair st.registry e h }
  | BusOp.emitOp e p fuel => emitRun env fuel st e p

/-- The initial bus state: empty registry, no latches, empty log. -/
def busInit : BusState := ⟨[], [], []⟩

/-- Run a sequence of bus operations from the initial state. -/
def runBusOps (env : HId → HSpec) (ops : List BusOp) : BusState :=
  ops.foldl (applyBusOp env) busInit

theorem emit_preserves_RegWF (env : HId → HSpec) :
    ∀ fuel : Nat,
      (∀ (st : BusState) (e : String) (p : Nat), RegWF st.registry →
        RegWF (emitRun env fuel st e p).registry) ∧
      (∀ (st : BusState) (h : HId) (p : Nat), RegWF st.registry →
        RegWF (invokeH env fuel st h p).registry) ∧
      (∀ (hs : List (HId × Bool)) (st : BusState) (p : Nat), RegWF st.registry →
        RegWF (foldInvoke env fuel st hs p).registry) ∧
      (∀ (body : List (String × Nat)) (st : BusState), RegWF st.registry →
        RegWF (runBody env fuel st body).registry) := by
  intro fuel
  induction fuel with
  | zero =>
    have he : ∀ (st : BusState) (e : String) (p : Nat), RegWF st.registry →
        RegWF (emitRun env 0 st e p).registry := by
      intro st e p hwf
      simpa [emitRun] using hwf
    have hi : ∀ (st : BusState) (h : HId) (p : Nat), RegWF st.registry →
        RegWF (invokeH env 0 st h p).registry := by
      intro st h p hwf
      simpa [invokeH] using hwf
    have hf : ∀ (hs : List (HId × Bool)) (st : BusState) (p : Nat),
        RegWF st.registry → RegWF (foldInvoke env 0 st hs p).registry := by
      intro hs
      induction hs with
      | nil => intro st p hwf; simpa [foldInvoke] using hwf
      | cons hb rest ih2 =>
        intro st p hwf
        simp only [foldInvoke]
        exact ih2 _ p (hi st hb.1 p hwf)
    have hr : ∀ (body : List (String × Nat)) (st : BusState),
        RegWF st.registry → RegWF (runBody env 0 st body).registry := by
      intro body
      induction body with
      | nil => intro st hwf; simpa [runBody] using hwf
      | cons ep rest ih2 =>
        intro st hwf
        simp only [runBody]
        exact ih2 _ (he st ep.1 ep.2 hwf)
    exact ⟨he, hi, hf, hr⟩
  | succ f ih =>
    obtain ⟨ihe, ihi, ihf, ihr⟩ := ih
    have hi : ∀ (st : BusState) (h : HId) (p : Nat), RegWF st.registry →
        RegWF (invokeH env (f + 1) st h p).registry := by
      intro st h p hwf
      simp only [invokeH]
      cases env h with
      | plain body => exact ihr body _ hwf
      | wrapper ev inner =>
        by_cases hl : h ∈ st.latched
        · simpa [hl] using hwf
        · simp only [if_neg hl]
          exact RegWF_offPair ev h
            (ihi { st with latched := st.latched ++ [h] } inner p hwf)
    have he : ∀ (st : BusState) (e : String) (p : Nat), RegWF st.registry →
        RegWF (emitRun env (f + 1) st e p).registry := by
      intro st e p hwf
      simp only [emitRun]
      exact ihf _ st p hwf
    have hf : ∀ (hs : List (HId × Bool)) (st : BusState) (p : Nat),
        RegWF st.registry → RegWF (foldInvoke env (f + 1) st hs p).registry := by
      intro hs
      induction hs with
      | nil => intro st p hwf; simpa [foldInvoke] using hwf
      | cons hb rest ih2 =>
        intro st p hwf
        simp only [foldInvoke]
        exact ih2 _ p (hi st hb.1 p hwf)
    have hr : ∀ (body : List (String × Nat)) (st : BusState),
        RegWF st.registry → RegWF (runBody env (f + 1) st body).registry := by
      intro body
      induction body with
      | nil => intro st hwf; simpa [runBody] using hwf
      | cons ep rest ih2 =>
        intro st hwf
        simp only [runBody]
        exact ih2 _ (he st ep.1 ep.2 hwf)
    exact ⟨he, hi, hf, hr⟩

theorem applyBusOp_RegWF (env : HId → HSpec) (st : BusState) (op : BusOp)
    (hwf : RegWF st.registry) : RegWF (applyBusOp env st op).registry := by
  cases op with
  | onOp e h => exact RegWF_onReg e h hwf
  | offAllOp => intro pr hpr; simp [applyBusOp] at hpr
  | offEventOp e => exact RegWF_deleteEvent e hwf
  | offPairOp e h => exact RegWF_offPair e h hwf
  | emitOp e p fuel => exact (emit_preserves_RegWF env fuel).1 st e p hwf

theorem runBusOps_RegWF (env : HId → HSpec) (ops : List BusOp) :
    RegWF (runBusOps env ops).registry := by
  suffices hgen : ∀ (l : List BusOp) (st : BusState), RegWF st.registry →
      RegWF (l.foldl (applyBusOp env) st).registry by
    exact hgen ops busInit (fun pr hpr => by simp [busInit] at hpr)
  intro l
  induction l with
  | nil => intro st hwf; simpa using hwf
  | cons op rest ih =>
    intro st hwf
    rw [List.foldl_cons]
    exact ih _ (applyBusOp_RegWF env st op hwf)

theorem lookup_some_of_mem_keys {reg : Registry} {n : String}
    (hn : n ∈ eventNames reg) : ∃ hs, lookupEvent reg n = some hs := by
  induction reg with
  | nil => simp [eventNames] at hn
  | cons pr rest ih =>
    obtain ⟨k, v⟩ := pr
    by_cases hk : k = n
    · exact ⟨v, by simp [lookupEvent, hk]⟩
    · have hn2 : n ∈ (k :: eventNames rest) := by
        simpa only [eventNames, List.map_cons] using hn
      rcases List.mem_cons.mp hn2 with hnk | hr
      · exact absurd hnk.symm hk
      · obtain ⟨hs, hh⟩ := ih hr
        exact ⟨hs, by simp [lookupEvent, hk, hh]⟩

theorem RegWF_listenerCount {reg : Registry} (hwf : RegWF reg) :
    ∀ n ∈ eventNames reg, 1 ≤ listenerCount reg n := by
  intro n hn
  obtain ⟨hs, hlook⟩ := lookup_some_of_mem_keys hn
  obtain ⟨pr, hpr, hprv⟩ := lookup_mem_of_some hlook
  have hne : hs ≠ [] := hprv ▸ hwf pr hpr
  have hpos : 0 < hs.length := List.length_pos.mpr hne
  simpa [listenerCount, hlook] using hpos

/-- C9: after every sequence of on / once / off / clearListeners / emit
operations (`once` registers its wrapper through `on`; `emit` may remove
once-wrappers via `off` during dispatch), the registry has no event with
an empty listener set — every name in `eventNames()` has `listenerCount`
at least 1 — and a final `off(null)` clear-all leaves `eventNames()`
empty. -/
theorem c9_no_empty_listener_sets (env : HId → HSpec) (ops : List BusOp) :
    (∀ n ∈ eventNames (runBusOps env ops).registry,
        1 ≤ listenerCount (runBusOps env ops).registry n) ∧
    eventNames (applyBusOp env (runBusOps env ops) BusOp.offAllOp).registry
      = [] := by
  refine ⟨RegWF_listenerCount (runBusOps_RegWF env ops), ?_⟩
  rfl

/-- Trivial handler environment for the C9 witness. -/
def envW9 : HId → HSpec := fun _ => HSpec.plain []

/-- Operations for the C9 witness: register listener 1 for `a` and
listener 2 for `b`, then remove the `a` pair, leaving `a` with an empty
set that must be dropped from the registry. -/
def opsW9 : List BusOp :=
  [BusOp.onOp "a" 1, BusOp.onOp "b" 2, BusOp.offPairOp "a" 1]

/-- Witness for C9 at a concrete operation sequence. -/
theorem c9_no_empty_listener_sets_witness :
    1 ≤ listenerCount (runBusOps envW9 opsW9).registry "b" ∧
    eventNames (applyBusOp envW9 (runBusOps envW9 opsW9) BusOp.offAllOp).registry
      = [] :=
  ⟨(c9_no_empty_listener_sets envW9 opsW9).1 "b" (by decide),
   (c9_no_empty_listener_sets envW9 opsW9).2⟩

/-- The two module phases (`"before"` / `"after"` aliases and the legacy
`beforeLoad` flag are normalized to these by `normalizePhase`). -/
inductive Phase where
  | bootstrap : Phase
  | runtime : Phase
deriving DecidableEq

/-- One entry of `moduleQueue`: a resolved specifier and its phase. -/
structure ModuleEntry where
  specifier : String
  phase : Phase
deriving DecidableEq

/-- The static loader / lifecycle state of `EventBus`.  `loadCalls` is the
trace of actual invocations of the injected load capability
(the dynamic `import(specifier)` expression), in order; `loadFailLog` is
the per-specifier failure log written by the catch inside `importModule`;
`phaseSummaries` records each aggregate per-phase failure summary printed
by `importPhase` (phase and rejected-count). -/
structure LoaderState where
  moduleQueue : List ModuleEntry
  importedModules : List String
  bootstrapCompleted : Bool
  runtimeCompleted : Bool
  isInit : Bool
  worldReady : Bool
  loadCalls : List String
  loadFailLog : List String
  phaseSummaries : List (Phase × Nat)
deriving DecidableEq

/-- The initial loader state (all static fields of the class). -/
def loaderInit : LoaderState := ⟨[], [], false, false, false, false, [], [], []⟩

/-- Mirrors `importModule(specifier)`; `beh s` tells whether the injected
load capability succeeds on `s`.  The returned boolean is the settled
status of the async call as observed by `importPhase` — `true` would mean
rejected, and it is `false` in every branch because the early return
resolves and the catch around `await import(specifier)` swallows the
failure (logging it per specifier), so the promise always fulfils. -/
def importModule (beh : String → Bool) (st : LoaderState) (s : String) :
    LoaderState × Bool :=
  if s ∈ st.importedModules then (st, false)
  else
    let st1 := { st with importedModules := st.importedModules ++ [s],
                         loadCalls := st.loadCalls ++ [s] }
    if beh s then (st1, false)
    else ({ st1 with loadFailLog := st1.loadFailLog ++ [s] }, false)

/-- One step of the batch load inside `importPhase`: run `importModule`
for the entry, thread the state and collect the settled status (the JS
launches the loads with `map` and joins them with `Promise.allSettled`;
every `importModule` call performs its synchronous set check and update
before the first suspension, so the trace order is the pending order). -/
def phaseStep (beh : String → Bool) (a : LoaderState × List Bool)
    (entry : ModuleEntry) : LoaderState × List Bool :=
  ((importModule beh a.1 entry.specifier).1,
   a.2 ++ [(importModule beh a.1 entry.specifier).2])

/-- Mirrors `importPhase(phase)`: filter the pending entries, set the phase
gate, return early when nothing is pending, otherwise load every pending
entry (collecting each settled status), count the rejected results, and
print the aggregate summary only when that count is positive. -/
def importPhase (beh : String → Bool) (st : LoaderState) (p : Phase) :
    LoaderState :=
  let pending := st.moduleQueue.filter (fun entry => entry.phase == p)
  let st1 := match p with
    | Phase.bootstrap => { st with bootstrapCompleted := true }
    | Phase.runtime => { st with runtimeCompleted := true }
  if pending.length = 0 then st1
  else
    let acc := pending.foldl (phaseStep beh) (st1, [])
    let failures := acc.2.filter (fun b => b)
    if 0 < failures.length then
      { acc.1 with phaseSummaries := acc.1.phaseSummaries ++ [(p, failures.length)] }
    else acc.1

/-- Mirrors `registerModule(specifier, options)` after specifier
validation / resolution and phase normalization (the claims quantify over
resolved specifiers and normalized phases): push the entry, then load it
immediately when its phase gate is already true. The returned cancel
capability only edits `moduleQueue` and is not needed for the claims. -/
def registerModule (beh : String → Bool) (st : LoaderState) (s : String)
    (p : Phase) : LoaderState :=
  let st1 := { st with moduleQueue := st.moduleQueue ++ [⟨s, p⟩] }
  let bootstrapReady := p == Phase.bootstrap && st1.bootstrapCompleted
  let runtimeReady := p == Phase.runtime && st1.runtimeCompleted
  if bootstrapReady || runtimeReady then (importModule beh st1 s).1 else st1

/-- Mirrors `initialize()`: a no-op when already initialized, otherwise
set the latch and run the bootstrap phase (the watchdog guard and the
worldLoad subscription touch only the dispatcher side). -/
def initMain (beh : String → Bool) (st : LoaderState) : LoaderState :=
  if st.isInit then st
  else importPhase beh { st with isInit := true } Phase.bootstrap

/-- Mirrors the first delivery of the host `worldLoad` event inside
`initialize()`: ignored when already seen, otherwise set the readiness
latch and run the runtime phase. -/
def worldLoadMain (beh : String → Bool) (st : LoaderState) : LoaderState :=
  if st.worldReady then st
  else importPhase beh { st with worldReady := true } Phase.runtime

/-- The loader-facing operations of a process run. -/
inductive LoaderOp where
  | register (s : String) (p : Phase) : LoaderOp
  | initOp : LoaderOp
  | worldLoadOp : LoaderOp
  | runPhaseOp (p : Phase) : LoaderOp

/-- Apply one loader operation. -/
def applyLoaderOp (beh : String → Bool) (st : LoaderState) :
    LoaderOp → LoaderState
  | LoaderOp.register s p => registerModule beh st s p
  | LoaderOp.initOp => initMain beh st
  | LoaderOp.worldLoadOp => worldLoadMain beh st
  | LoaderOp.runPhaseOp p => importPhase beh st p

/-- Run a sequence of loader operations from the initial state. -/
def runLoaderOps (beh : String → Bool) (ops : List LoaderOp) : LoaderState :=
  ops.foldl (applyLoaderOp beh) loaderInit

/-- The at-most-once-load invariant: the trace of load-capability
invocations is duplicate-free and below the loaded set. -/
def LoadInv (st : LoaderState) : Prop :=
  st.loadCalls.Nodup ∧ ∀ s ∈ st.loadCalls, s ∈ st.importedModules

theorem nodup_append_singleton {l : List String} {s : String}
    (hnd : l.Nodup) (hns : s ∉ l) : (l ++ [s]).Nodup := by
  simp [List.nodup_append, hnd, hns]

theorem importModule_inv (beh : String → Bool) (st : LoaderState)
    (s : String) (hinv : LoadInv st) : LoadInv (importModule beh st s).1 := by
  obtain ⟨hnd, hsub⟩ := hinv
  by_cases hmem : s ∈ st.importedModules
  · simpa [importModule, hmem] using ⟨hnd, hsub⟩
  · have hnotcall : s ∉ st.loadCalls := fun hc => hmem (hsub s hc)
    have hcore : ((st.loadCalls ++ [s]).Nodup ∧
        ∀ x ∈ st.loadCalls ++ [s], x ∈ st.importedModules ++ [s]) := by
      refine ⟨nodup_append_singleton hnd hnotcall, ?_⟩
      intro x hx
      rcases List.mem_append.mp hx with hx1 | hx2
      · exact List.mem_append_left _ (hsub x hx1)
      · exact List.mem_append_right _ hx2
    by_cases hbeh : beh s
    · simpa [importModule, hmem, hbeh, LoadInv] using hcore
    · simpa [importModule, hmem, hbeh, LoadInv] using hcore

theorem foldl_phaseStep_inv (beh : String → Bool) :
    ∀ (pending : List ModuleEntry) (acc : LoaderState × List Bool),
      LoadInv acc.1 →
      LoadInv (pending.foldl (phaseStep beh) acc).1 := by
  intro pending
  induction pending with
  | nil => intro acc h; simpa using h
  | cons entry rest ih =>
    intro acc h
    rw [List.foldl_cons]
    exact ih _ (importModule_inv beh acc.1 entry.specifier h)

theorem importPhase_inv (beh : String → Bool) (st : LoaderState) (p : Phase)
    (hinv : LoadInv st) : LoadInv (importPhase beh st p) := by
  cases p <;>
  · simp only [importPhase]
    split
    · exact hinv
    · split
      · exact foldl_phaseStep_inv beh _ _ hinv
      · exact foldl_phaseStep_inv beh _ _ hinv

theorem registerModule_inv (beh : String → Bool) (st : LoaderState)
    (s : String) (p : Phase) (hinv : LoadInv st) :
    LoadInv (registerModule beh st s p) := by
  simp only [registerModule]
  split
  · exact importModule_inv beh _ s hinv
  · exact hinv

theorem initMain_inv (beh : String → Bool) (st : LoaderState)
    (hinv : LoadInv st) : LoadInv (initMain beh st) := by
  unfold initMain
  split
  · exact hinv
  · exact importPhase_inv beh _ _ hinv

theorem worldLoadMain_inv (beh : String → Bool) (st : LoaderState)
    (hinv : LoadInv st) : LoadInv (worldLoadMain beh st) := by
  unfold worldLoadMain
  split
  · exact hinv
  · exact importPhase_inv beh _ _ hinv

theorem runLoaderOps_inv (beh : String → Bool) (ops : List LoaderOp) :
    LoadInv (runLoaderOps beh ops) := by
  suffices hgen : ∀ (l : List LoaderOp) (st : LoaderState), LoadInv st →
      LoadInv (l.foldl (applyLoaderOp beh) st) by
    exact hgen ops loaderInit ⟨List.nodup_nil, by simp [loaderInit]⟩
  intro l
  induction l with
  | nil => intro st h; simpa using h
  | cons op rest ih =>
    intro st h
    rw [List.foldl_cons]
    refine ih _ ?_
    cases op with
    | register s p => exact registerModule_inv beh st s p h
    | initOp => exact initMain_inv beh st h
    | worldLoadOp => exact worldLoadMain_inv beh st h
    | runPhaseOp p => exact importPhase_inv beh st p h

/-- C5: over every sequence of registerModule / initialize / worldLoad /
phase-load operations and every load-capability behaviour, each resolved
specifier is passed to the injected load capability at most once for the
whole process lifetime — in particular, re-registering an
already-loaded specifier performs no second load. -/
theorem c5_at_most_once_load (beh : String → Bool) (ops : List LoaderOp)
    (s : String) :
    (runLoaderOps beh ops).loadCalls.count s ≤ 1 :=
  List.nodup_iff_count_le_one.mp (runLoaderOps_inv beh ops).1 s

/-- C6: if `registerModule(s, p)` runs after phase `p`'s gate is already
true and `s` has not been loaded yet, `registerModule` itself triggers the
load of `s` immediately (the load-call trace is extended by `s`), instead
of leaving `s` stranded in the queue. -/
theorem c6_late_registration_loads_immediately (beh : String → Bool)
    (st : LoaderState) (s : String) (p : Phase)
    (hgate : (p = Phase.bootstrap ∧ st.bootstrapCompleted = true) ∨
             (p = Phase.runtime ∧ st.runtimeCompleted = true))
    (hnew : s ∉ st.importedModules) :
    (registerModule beh st s p).loadCalls = st.loadCalls ++ [s] := by
  rcases hgate with ⟨hp, hg⟩ | ⟨hp, hg⟩ <;> subst hp <;>
  · simp only [registerModule]
    rw [if_pos (by simp [hg])]
    simp only [importModule]
    rw [if_neg (by simpa using hnew)]
    by_cases hbeh : beh s <;> simp [hbeh]

/-- A load-capability behaviour that always succeeds, for witnesses. -/
def behOk : String → Bool := fun _ => true

/-- Witness for C6: after `initialize()` and the `worldLoad` delivery
(both phase gates true), a late `registerModule("b", runtime)` triggers
the load of "b" immediately. -/
theorem importModule_snd (beh : String → Bool) (st : LoaderState)
    (s : String) : (importModule beh st s).2 = false := by
  by_cases hmem : s ∈ st.importedModules
  · simp [importModule, hmem]
  · by_cases hbeh : beh s <;> simp [importModule, hmem, hbeh]

theorem importModule_phaseSummaries (beh : String → Bool) (st : LoaderState)
    (s : String) : (importModule beh st s).1.phaseSummaries = st.phaseSummaries := by
  by_cases hmem : s ∈ st.importedModules
  · simp [importModule, hmem]
  · by_cases hbeh : beh s <;> simp [importModule, hmem, hbeh]

theorem importModule_imports_self (beh : String → Bool) (st : LoaderState)
    (s : String) : s ∈ (importModule beh st s).1.importedModules := by
  by_cases hmem : s ∈ st.importedModules
  · simp [importModule, hmem]
  · by_cases hbeh : beh s <;> simp [importModule, hmem, hbeh]

theorem importModule_imports_mono (beh : String → Bool) (st : LoaderState)
    (s x : String) (hx : x ∈ st.importedModules) :
    x ∈ (importModule beh st s).1.importedModules := by
  by_cases hmem : s ∈ st.importedModules
  · simpa [importModule, hmem] using hx
  · by_cases hbeh : beh s <;> simp [importModule, hmem, hbeh] <;> exact Or.inl hx

theorem foldl_phaseStep_summaries (beh : String → Bool) :
    ∀ (pending : List ModuleEntry) (acc : LoaderState × List Bool),
      (pending.foldl (phaseStep beh) acc).1.phaseSummaries
        = acc.1.phaseSummaries := by
  intro pending
  induction pending with
  | nil => intro acc; rfl
  | cons entry rest ih =>
    intro acc
    rw [List.foldl_cons, ih]
    simp [phaseStep, importModule_phaseSummaries]

theorem foldl_phaseStep_statuses (beh : String → Bool) :
    ∀ (pending : List ModuleEntry) (acc : LoaderState × List Bool),
      (∀ b ∈ acc.2, b = false) →
      ∀ b ∈ (pending.foldl (phaseStep beh) acc).2, b = false := by
  intro pending
  induction pending with
  | nil => intro acc h; simpa using h
  | cons entry rest ih =>
    intro acc h
    rw [List.foldl_cons]
    refine ih _ ?_
    intro b hb
    rcases (by simpa [phaseStep] using hb :
        b ∈ acc.2 ∨ b = (importModule beh acc.1 entry.specifier).2) with h1 | h2
    · exact h b h1
    · rw [h2]
      exact importModule_snd beh acc.1 entry.specifier

theorem phase_failures_nil (beh : String → Bool)
    (pending : List ModuleEntry) (st1 : LoaderState) :
    ((pending.foldl (phaseStep beh) (st1, [])).2.filter (fun b => b)) = [] := by
  apply List.filter_eq_nil_iff.mpr
  intro b hb
  have hfalse := foldl_phaseStep_statuses beh pending (st1, []) (by simp) b hb
  simp [hfalse]

theorem foldl_phaseStep_mono (beh : String → Bool) :
    ∀ (pending : List ModuleEntry) (acc : LoaderState × List Bool)
      (x : String), x ∈ acc.1.importedModules →
      x ∈ (pending.foldl (phaseStep beh) acc).1.importedModules := by
  intro pending
  induction pending with
  | nil => intro acc x hx; simpa using hx
  | cons entry rest ih =>
    intro acc x hx
    rw [List.foldl_cons]
    exact ih _ x (importModule_imports_mono beh acc.1 entry.specifier x hx)

theorem foldl_phaseStep_covers (beh : String → Bool) :
    ∀ (pending : List ModuleEntry) (acc : LoaderState × List Bool),
      ∀ entry ∈ pending,
        entry.specifier ∈ (pending.foldl (phaseStep beh) acc).1.importedModules := by
  intro pending
  induction pending with
  | nil => intro acc entry h; simp at h
  | cons e0 rest ih =>
    intro acc entry hentry
    rw [List.foldl_cons]
    rcases List.mem_cons.mp hentry with h1 | h2
    · subst h1
      refine foldl_phaseStep_mono beh rest _ entry.specifier ?_
      simpa [phaseStep] using importModule_imports_self beh acc.1 entry.specifier
    · exact ih _ entry h2

theorem importPhase_phaseSummaries (beh : String → Bool) (st : LoaderState)
    (p : Phase) : (importPhase beh st p).phaseSummaries = st.phaseSummaries := by
  cases p <;>
  · simp only [importPhase]
    split
    · rfl
    · rw [phase_failures_nil]
      simp [foldl_phaseStep_summaries]

theorem importPhase_covers (beh : String → Bool) (st : LoaderState)
    (p : Phase) :
    ∀ entry ∈ st.moduleQueue, entry.phase = p →
      entry.specifier ∈ (importPhase beh st p).importedModules := by
  intro entry hentry hphase
  have hpend : entry ∈ st.moduleQueue.filter (fun en => en.phase == p) :=
    List.mem_filter.mpr ⟨hentry, by simp [hphase]⟩
  cases p <;>
  · simp only [importPhase]
    split
    · next hlen =>
      rw [List.length_eq_zero.mp hlen] at hpend
      simp at hpend
    · rw [phase_failures_nil]
      simpa using foldl_phaseStep_covers beh _ _ entry hpend

/-- The per-specifier failure log of `importModule` records exactly the
load-capability invocations that failed, in order. -/
def FailTraceInv (beh : String → Bool) (st : LoaderState) : Prop :=
  st.loadFailLog = st.loadCalls.filter (fun s => !beh s)

theorem importModule_failTrace (beh : String → Bool) (st : LoaderState)
    (s : String) (h : FailTraceInv beh st) :
    FailTraceInv beh (importModule beh st s).1 := by
  unfold FailTraceInv at h ⊢
  by_cases hmem : s ∈ st.importedModules
  · simpa [importModule, hmem] using h
  · by_cases hbeh : beh s <;>
      simp [importModule, hmem, hbeh, List.filter_append, h]

theorem foldl_phaseStep_failTrace (beh : String → Bool) :
    ∀ (pending : List ModuleEntry) (acc : LoaderState × List Bool),
      FailTraceInv beh acc.1 →
      FailTraceInv beh (pending.foldl (phaseStep beh) acc).1 := by
  intro pending
  induction pending with
  | nil => intro acc h; simpa using h
  | cons entry rest ih =>
    intro acc h
    rw [List.foldl_cons]
    exact ih _ (importModule_failTrace beh acc.1 entry.specifier h)

theorem importPhase_failTrace (beh : String → Bool) (st : LoaderState)
    (p : Phase) (h : FailTraceInv beh st) :
    FailTraceInv beh (importPhase beh st p) := by
  cases p <;>
  · simp only [importPhase]
    split
    · exact h
    · split
      · exact foldl_phaseStep_failTrace beh _ _ h
      · exact foldl_phaseStep_failTrace beh _ _ h

theorem runLoaderOps_failTrace (beh : String → Bool) (ops : List LoaderOp) :
    FailTraceInv beh (runLoaderOps beh ops) := by
  suffices hgen : ∀ (l : List LoaderOp) (st : LoaderState), FailTraceInv beh st →
      FailTraceInv beh (l.foldl (applyLoaderOp beh) st) by
    exact hgen ops loaderInit (by simp [FailTraceInv, loaderInit])
  intro l
  induction l with
  | nil => intro st h; simpa using h
  | cons op rest ih =>
    intro st h
    rw [List.foldl_cons]
    refine ih _ ?_
    cases op with
    | register s p =>
      simp only [applyLoaderOp, registerModule]
      split
      · exact importModule_failTrace beh _ s h
      · exact h
    | initOp =>
      simp only [applyLoaderOp, initMain]
      split
      · exact h
      · exact importPhase_failTrace beh _ _ h
    | worldLoadOp =>
      simp only [applyLoaderOp, worldLoadMain]
      split
      · exact h
      · exact importPhase_failTrace beh _ _ h
    | runPhaseOp p => exact importPhase_failTrace beh st p h

/-- A load-capability behaviour on which every load fails, for the C7
counterexample. -/
def behFail : String → Bool := fun _ => false

/-- Loader state for the C7 counterexample: one bootstrap module "a"
queued before any phase ran. -/
def stC7 : LoaderState := registerModule behFail loaderInit "a" Phase.bootstrap

/-- C7 counterexample: running the bootstrap phase over the single module
"a" whose load fails produces the per-specifier failure log ["a"] — one
failed load — yet NO aggregate phase summary at all: `importModule`
catches the failure internally, so its promise fulfils, `importPhase`
observes zero rejected results and skips the aggregate
`console.error`. The aggregate failure count therefore does not equal the
number of entries whose load failed (0 reported vs 1 failed). -/
theorem c7_counterexample_no_aggregate_summary :
    (importPhase behFail stC7 Phase.bootstrap).loadFailLog = ["a"] ∧
    (importPhase behFail stC7 Phase.bootstrap).phaseSummaries = [] := by
  constructor
  · rfl
  · rfl

/-- C7 (amended): when loads of a phase batch fail, every pending entry of
the phase is still attempted (its specifier ends up in the loaded set) and
each failing load is caught and logged per specifier by `importModule`
(over every operation sequence, the failure log equals the failing prefix
trace of load calls); but because `importModule` never rejects, the
phase-level aggregate summary is never produced — `phaseSummaries` is
unchanged by every phase load, whatever fails. -/
theorem c7_phase_batch_isolation (beh : String → Bool) (st : LoaderState)
    (p : Phase) :
    (importPhase beh st p).phaseSummaries = st.phaseSummaries ∧
    (∀ entry ∈ st.moduleQueue, entry.phase = p →
        entry.specifier ∈ (importPhase beh st p).importedModules) ∧
    (∀ ops : List LoaderOp,
        (runLoaderOps beh ops).loadFailLog =
          (runLoaderOps beh ops).loadCalls.filter (fun s => !beh s)) :=
  ⟨importPhase_phaseSummaries beh st p, importPhase_covers beh st p,
   fun ops => runLoaderOps_failTrace beh ops⟩

/-- Operation sequence for the C7 amended witness. -/
def opsC7w : List LoaderOp :=
  [LoaderOp.register "a" Phase.bootstrap, LoaderOp.initOp]

/-- Witness for the amended C7 at the concrete failing batch. -/
theorem c7_phase_batch_isolation_witness :
    (importPhase behFail stC7 Phase.bootstrap).phaseSummaries
      = stC7.phaseSummaries ∧
    "a" ∈ (importPhase behFail stC7 Phase.bootstrap).importedModules ∧
    (runLoaderOps behFail opsC7w).loadFailLog =
      (runLoaderOps behFail opsC7w).loadCalls.filter (fun s => !behFail s) :=
  ⟨(c7_phase_batch_isolation behFail stC7 Phase.bootstrap).1,
   (c7_phase_batch_isolation behFail stC7 Phase.bootstrap).2.1
     ⟨"a", Phase.bootstrap⟩ (by decide) rfl,
   (c7_phase_batch_isolation behFail stC7 Phase.bootstrap).2.2 opsC7w⟩

/-- A JavaScript value passed as the `handler` argument of `off`:
undefined, a function (identified by its id), or any other non-callable
value. -/
inductive JSVal where
  | undef : JSVal
  | fn (id : HId) : JSVal
  | nonfn : JSVal
deriving DecidableEq

/-- Mirrors `EventBus.off(eventName, handler)` for a string event name,
with the branch order of the code: the event name is validated (a string
by type here); the handler set is looked up and the call returns early
when it is absent; an undefined handler drops the whole event; only then
is the handler validated (`TypeError` unless callable) and the pair
deleted (dropping the event when its set empties). -/
def offChecked (reg : Registry) (e : String) (h : JSVal) :
    Except String Registry :=
  match lookupEvent reg e with
  | none => Except.ok reg
  | some hs =>
    match h with
    | JSVal.undef => Except.ok (deleteEvent reg e)
    | JSVal.fn id =>
      Except.ok
        (if (hs.filter (fun x => x ≠ id)).length = 0 then deleteEvent reg e
         else setEvent reg e (hs.filter (fun x => x ≠ id)))
    | JSVal.nonfn => Except.error "Handler must be a function"

/-- C10 counterexample: with no listener registered for "x",
`off("x", h)` with a non-callable, non-undefined `h` returns normally as a
no-op instead of throwing `TypeError` — the code returns on the missing
handler set before ever validating the handler argument. -/
theorem c10_counterexample_no_throw_on_unknown_event :
    offChecked [] "x" JSVal.nonfn = Except.ok [] := rfl

/-- C10 (amended): `off(e, h)` with `h` neither undefined nor callable
throws `TypeError` exactly when `e` currently has a listener set; when `e`
has no listener set, `off` returns before validating the handler, so the
call is a silent no-op. -/
theorem c10_off_validates_only_with_listeners (reg : Registry) (e : String) :
    (∀ hs, lookupEvent reg e = some hs →
        offChecked reg e JSVal.nonfn
          = Except.error "Handler must be a function") ∧
    (lookupEvent reg e = none → offChecked reg e JSVal.nonfn = Except.ok reg) := by
  constructor
  · intro hs hlook
    unfold offChecked
    rw [hlook]
  · intro hlook
    unfold offChecked
    rw [hlook]

/-- Witness for the amended C10: with listener 1 registered for "x" the
call throws; with nothing registered for "y" it is a no-op. -/
theorem c10_off_validates_only_with_listeners_witness :
    (offChecked (onReg [] "x" 1) "x" JSVal.nonfn
      = Except.error "Handler must be a function") ∧
    (offChecked [] "y" JSVal.nonfn = Except.ok []) :=
  ⟨(c10_off_validates_only_with_listeners (onReg [] "x" 1) "x").1 [1] (by decide),
   (c10_off_validates_only_with_listeners [] "y").2 rfl⟩

theorem c6_late_registration_loads_immediately_witness :
    (registerModule behOk (worldLoadMain behOk (initMain behOk loaderInit)) "b"
        Phase.runtime).loadCalls =
      (worldLoadMain behOk (initMain behOk loaderInit)).loadCalls ++ ["b"] :=
  c6_late_registration_loads_immediately behOk
    (worldLoadMain behOk (initMain behOk loaderInit)) "b" Phase.runtime
    (Or.inr ⟨rfl, by decide⟩) (by decide)

end EventBus
